import Mathlib

/-!
Verification of the group payment tracker (First.py): a shallow embedding of
the SQLite state (members table, payments table, autoincrement counter,
meta watermark) and of the operations the application performs, followed by
theorems about the rollover engine, the CRUD operations and the reporting
aggregations.
-/

/-- Row of the members table: id, name, phone (nullable), amount (REAL,
default 250). -/
structure Member where
  id : Nat
  name : String
  phone : Option String
  amount : Rat
deriving DecidableEq

/-- Row of the payments table: autoincrement id, member_id, month, year,
status (TEXT, 'Unpaid' or 'Paid'), amount (REAL), last_updated (TEXT). -/
structure PaymentRow where
  pid : Nat
  member_id : Nat
  month : Nat
  year : Nat
  status : String
  amount : Rat
  last_updated : String
deriving DecidableEq

/-- The database state: the two tables, the next autoincrement payment id,
and the meta table's single key ('last_run_month' watermark). -/
structure DB where
  members : List Member
  payments : List PaymentRow
  nextPid : Nat
  lastRunMonth : Option String
deriving DecidableEq

/-- The freshly created database (empty tables, no watermark). -/
def initialDB : DB := { members := [], payments := [], nextPid := 1, lastRunMonth := none }

/-- Models `SELECT 1 FROM payments WHERE member_id=? AND month=? AND year=?`
followed by a fetchone truthiness test. -/
def rowExists (ps : List PaymentRow) (mid mo yr : Nat) : Bool :=
  ps.any fun p => p.member_id == mid && p.month == mo && p.year == yr

/-- Models `SELECT 1 FROM members WHERE id=?` followed by a fetchone
truthiness test (used by generate_unique_id). -/
def memberExists (ms : List Member) (mid : Nat) : Bool :=
  ms.any fun m => m.id == mid

/-- Models `SELECT amount FROM members WHERE id=?` with the fallback
`float(row[0]) if row else 250.0` in ensure_payments_for_member_month. -/
def findMemberAmount (ms : List Member) (mid : Nat) : Rat :=
  match ms.find? fun m => m.id == mid with
  | some m => m.amount
  | none => 250

/-- Models the body of `generate_unique_id` as a fuelled loop over a stream
of draws from `random.randint(10000, 99999)`: draw `stream k`, return it if
no member has that id, otherwise retry with the next draw. `none` means the
fuel ran out before a free id was drawn (the source loops forever). -/
def generate_unique_id (ms : List Member) (stream : Nat → Nat) : Nat → Nat → Option Nat
  | 0, _ => none
  | fuel + 1, k =>
    if memberExists ms (stream k) then generate_unique_id ms stream fuel (k + 1)
    else some (stream k)

/-- Models `ensure_payments_for_member_month(member_id)`: if no row exists
for (member_id, month, year), insert one with status 'Unpaid', the member's
amount (or 250.0 when the member is absent) and last_updated = now. -/
def ensure_payments_for_member_month (mid mo yr : Nat) (now : String) (db : DB) : DB :=
  if rowExists db.payments mid mo yr then db
  else
    { db with
      payments := db.payments ++
        [{ pid := db.nextPid, member_id := mid, month := mo, year := yr,
           status := "Unpaid", amount := findMemberAmount db.members mid,
           last_updated := now }],
      nextPid := db.nextPid + 1 }

/-- One iteration of the loop in `ensure_payments_for_month`: for the member
(id, amount) pair, insert a current-period row unless one already exists.
The accumulator is the payments table plus the autoincrement counter. -/
def epfm_step (mo yr : Nat) (now : String) (acc : List PaymentRow × Nat) (m : Member) :
    List PaymentRow × Nat :=
  if rowExists acc.1 m.id mo yr then acc
  else (acc.1 ++
    [{ pid := acc.2, member_id := m.id, month := mo, year := yr,
       status := "Unpaid", amount := m.amount, last_updated := now }], acc.2 + 1)

/-- Models `ensure_payments_for_month()`: snapshot `SELECT id, amount FROM
members`, then for each member insert a current-period row if none exists. -/
def ensure_payments_for_month (mo yr : Nat) (now : String) (db : DB) : DB :=
  let r := db.members.foldl (epfm_step mo yr now) (db.payments, db.nextPid)
  { db with payments := r.1, nextPid := r.2 }

/-- Models the f-string `f"{month:02d}-{year}"` used for the watermark. -/
def monthKey (mo yr : Nat) : String :=
  (if mo < 10 then "0" ++ Nat.repr mo else Nat.repr mo) ++ "-" ++ Nat.repr yr

/-- Models `ensure_monthly_rollover()`: compare the meta watermark with the
current period's key; when they differ, run the bulk fill and advance the
watermark, otherwise do nothing. -/
def ensure_monthly_rollover (mo yr : Nat) (now : String) (db : DB) : DB :=
  if db.lastRunMonth = some (monthKey mo yr) then db
  else
    { ensure_payments_for_month mo yr now db with lastRunMonth := some (monthKey mo yr) }

/-- Models `add_member(name, phone, amount)` after `generate_unique_id`
returned `mid`: insert the member row, then ensure its current-period
payment row. -/
def add_member (mid : Nat) (name : String) (phone : Option String) (amount : Rat)
    (mo yr : Nat) (now : String) (db : DB) : DB :=
  ensure_payments_for_member_month mid mo yr now
    { db with members := db.members ++ [{ id := mid, name := name, phone := phone, amount := amount }] }

/-- Models Python str.strip() with no argument: remove leading and
trailing whitespace characters. -/
def pyStrip (s : String) : String :=
  ⟨((s.data.dropWhile Char.isWhitespace).reverse.dropWhile Char.isWhitespace).reverse⟩

/-- Models the Add Member form handler: reject the submission (no database
change) when the name is empty after stripping, otherwise call add_member
with the stripped name and the stripped phone (empty phone becomes NULL). -/
def addMemberForm (rawName rawPhone : String) (amount : Rat) (mid mo yr : Nat)
    (now : String) (db : DB) : DB :=
  if pyStrip rawName = "" then db
  else add_member mid (pyStrip rawName) (if rawPhone = "" then none else some (pyStrip rawPhone))
    amount mo yr now db

/-- Models `update_member(member_id, name, phone, amount)`: overwrite the
member row with that id, then overwrite amount and last_updated on the
(member_id, current month, current year) payment row. -/
def update_member (mid : Nat) (name : String) (phone : Option String) (amount : Rat)
    (mo yr : Nat) (now : String) (db : DB) : DB :=
  { db with
    members := db.members.map fun m =>
      if m.id == mid then { m with name := name, phone := phone, amount := amount } else m,
    payments := db.payments.map fun p =>
      if p.member_id == mid && p.month == mo && p.year == yr then
        { p with amount := amount, last_updated := now }
      else p }

/-- Models `delete_member(member_id)`: delete every payment row of the
member, then the member row. -/
def delete_member (mid : Nat) (db : DB) : DB :=
  { db with
    payments := db.payments.filter fun p => !(p.member_id == mid),
    members := db.members.filter fun m => !(m.id == mid) }

/-- Models `clear_all_data()`: delete all payments and members and reset the
payments autoincrement counter; the meta watermark is left in place. -/
def clear_all_data (db : DB) : DB :=
  { db with payments := [], members := [], nextPid := 1 }

/-- Models `mark_paid_for_member_current_month(member_id)`: set status
'Paid' and refresh last_updated on the member's current-period row. -/
def mark_paid_for_member_current_month (mid mo yr : Nat) (now : String) (db : DB) : DB :=
  { db with
    payments := db.payments.map fun p =>
      if p.member_id == mid && p.month == mo && p.year == yr then
        { p with status := "Paid", last_updated := now }
      else p }

/-- Models the inline Mark-as-Unpaid handler in the admin Members tab:
set status 'Unpaid' and refresh last_updated on the current-period row. -/
def mark_unpaid_for_member_current_month (mid mo yr : Nat) (now : String) (db : DB) : DB :=
  { db with
    payments := db.payments.map fun p =>
      if p.member_id == mid && p.month == mo && p.year == yr then
        { p with status := "Unpaid", last_updated := now }
      else p }

/-- Models `datetime(year, month, 1).strftime("%b")` for valid months. -/
def monthAbbrev : Nat → String
  | 1 => "Jan" | 2 => "Feb" | 3 => "Mar" | 4 => "Apr" | 5 => "May" | 6 => "Jun"
  | 7 => "Jul" | 8 => "Aug" | 9 => "Sep" | 10 => "Oct" | 11 => "Nov" | 12 => "Dec"
  | _ => "???"

/-- Models the month label `datetime(year, month, 1).strftime("%b %Y")` used
by the dashboard trend chart. -/
def monthLabel (mo yr : Nat) : String :=
  monthAbbrev mo ++ " " ++ Nat.repr yr

/-- Models Python `int()` on a (rational-valued) float: truncation toward
zero. -/
def pyInt (q : Rat) : Int :=
  if q.num < 0 then -(Int.ofNat (q.num.natAbs / q.den)) else Int.ofNat (q.num.natAbs / q.den)

/-- Code-point lexicographic strict order on character lists: the order
Python uses to compare strings (and hence the order pandas sort_values
applies to the month_label column). -/
def strLtB : List Char → List Char → Bool
  | [], [] => false
  | [], _ :: _ => true
  | _ :: _, [] => false
  | a :: as, b :: bs =>
    if a.toNat < b.toNat then true
    else if b.toNat < a.toNat then false
    else strLtB as bs

/-- Code-point lexicographic order on strings, non-strict. -/
def strLeB (a b : String) : Bool := !(strLtB b.data a.data)

/-- Models the dashboard trend computation: keep the rows with status
'Paid', group them by the "%b %Y" month label summing the amounts (pandas
groupby sorts its keys), then sort the groups by the label string
(sort_values on month_label). The result is the plotted series. -/
def trend_series (ps : List PaymentRow) : List (String × Rat) :=
  let paid := ps.filter fun p => p.status == "Paid"
  let labels := (paid.map fun p => monthLabel p.month p.year).dedup
  let sorted := labels.insertionSort fun a b => strLeB a b = true
  sorted.map fun l =>
    (l, ((paid.filter fun p => monthLabel p.month p.year == l).map fun p => p.amount).sum)

/-- The figures shown by the Logs page for one selected month label. -/
structure LogsSummary where
  membersCount : Nat
  paidCount : Nat
  unpaidCount : Nat
  collected : Int
deriving DecidableEq

/-- Models the Logs page summary for the selected month label: filter the
joined payments to the rows whose "%B %Y"-style label equals the selection,
then report the number of distinct member ids, the Paid row count, the
Unpaid row count, and int() of the sum of Paid amounts. (The page renders
the label with the full month name; the grouping is the same.) -/
def logs_summary (ps : List PaymentRow) (sel : String) : LogsSummary :=
  let grp := ps.filter fun p => monthLabel p.month p.year == sel
  { membersCount := (grp.map fun p => p.member_id).dedup.length,
    paidCount := (grp.filter fun p => p.status == "Paid").length,
    unpaidCount := (grp.filter fun p => p.status == "Unpaid").length,
    collected := pyInt ((grp.filter fun p => p.status == "Paid").map fun p => p.amount).sum }

/-! Basic facts about the point lookups. -/

theorem memberExists_iff (ms : List Member) (mid : Nat) :
    memberExists ms mid = true ↔ ∃ m ∈ ms, m.id = mid := by
  simp [memberExists]

theorem rowExists_iff (ps : List PaymentRow) (mid mo yr : Nat) :
    rowExists ps mid mo yr = true ↔
      ∃ p ∈ ps, p.member_id = mid ∧ p.month = mo ∧ p.year = yr := by
  simp [rowExists, and_assoc]

theorem rowExists_append (ps qs : List PaymentRow) (mid mo yr : Nat) :
    rowExists (ps ++ qs) mid mo yr = (rowExists ps mid mo yr || rowExists qs mid mo yr) := by
  simp [rowExists, List.any_append]

/-- Claim C5: delete_member removes the member row with the given id and
every payment row referencing it, and every other member row and payment
row survives unchanged (the remaining tables are sublists of the old ones,
so surviving rows are exactly the old rows); the autoincrement counter and
the watermark are untouched. -/
theorem delete_member_cascade (db : DB) (mid : Nat) :
    (∀ m ∈ (delete_member mid db).members, m.id ≠ mid) ∧
    (∀ p ∈ (delete_member mid db).payments, p.member_id ≠ mid) ∧
    (∀ m ∈ db.members, m.id ≠ mid → m ∈ (delete_member mid db).members) ∧
    (∀ p ∈ db.payments, p.member_id ≠ mid → p ∈ (delete_member mid db).payments) ∧
    (delete_member mid db).members.Sublist db.members ∧
    (delete_member mid db).payments.Sublist db.payments ∧
    (delete_member mid db).nextPid = db.nextPid ∧
    (delete_member mid db).lastRunMonth = db.lastRunMonth := by
  refine ⟨?_, ?_, ?_, ?_, ?_, ?_, rfl, rfl⟩
  · intro m hm
    simp [delete_member, List.mem_filter] at hm
    exact hm.2
  · intro p hp
    simp [delete_member, List.mem_filter] at hp
    exact hp.2
  · intro m hm hne
    simp [delete_member, List.mem_filter]
    exact ⟨hm, hne⟩
  · intro p hp hne
    simp [delete_member, List.mem_filter]
    exact ⟨hp, hne⟩
  · exact List.filter_sublist db.members
  · exact List.filter_sublist db.payments

/-- Claim C3: for an existing member id, update_member overwrites that
member's name, phone and due amount (all other members keep their rows);
on the payments table it touches only the (member_id, current month,
current year) row, where it overwrites amount and last_updated; every
other row — other periods of the same member and all rows of other
members — is exactly unchanged, and key fields and statuses are preserved
everywhere. -/
theorem update_member_frame (db : DB) (mid : Nat) (name : String) (phone : Option String)
    (amt : Rat) (mo yr : Nat) (now : String)
    (hmem : memberExists db.members mid = true) :
    (∃ m ∈ (update_member mid name phone amt mo yr now db).members, m.id = mid) ∧
    (∀ m ∈ (update_member mid name phone amt mo yr now db).members,
        m.id = mid → m.name = name ∧ m.phone = phone ∧ m.amount = amt) ∧
    (∀ m ∈ db.members, m.id ≠ mid → m ∈ (update_member mid name phone amt mo yr now db).members) ∧
    (update_member mid name phone amt mo yr now db).payments.length = db.payments.length ∧
    (∀ (i : Nat) (p : PaymentRow), db.payments[i]? = some p →
      ∃ q : PaymentRow, (update_member mid name phone amt mo yr now db).payments[i]? = some q ∧
        q.status = p.status ∧ q.member_id = p.member_id ∧ q.month = p.month ∧
        q.year = p.year ∧ q.pid = p.pid ∧
        (¬(p.member_id = mid ∧ p.month = mo ∧ p.year = yr) → q = p) ∧
        (p.member_id = mid → p.month = mo → p.year = yr →
          q.amount = amt ∧ q.last_updated = now)) := by
  obtain ⟨m0, hm0, hid0⟩ := (memberExists_iff db.members mid).mp hmem
  refine ⟨?_, ?_, ?_, ?_, ?_⟩
  · refine ⟨{ m0 with name := name, phone := phone, amount := amt }, ?_, hid0⟩
    simp only [update_member, List.mem_map]
    exact ⟨m0, hm0, by simp [hid0]⟩
  · intro m hm hid
    simp only [update_member, List.mem_map] at hm
    obtain ⟨m1, _, heq⟩ := hm
    by_cases h1 : m1.id = mid
    · rw [← heq]; simp [h1]
    · rw [← heq] at hid ⊢
      simp [h1] at hid
  · intro m hm hne
    simp only [update_member, List.mem_map]
    refine ⟨m, hm, ?_⟩
    simp [hne]
  · simp [update_member]
  · intro i p hp
    have hmap : (update_member mid name phone amt mo yr now db).payments[i]? =
        (db.payments[i]?).map fun (r : PaymentRow) =>
          if r.member_id == mid && r.month == mo && r.year == yr then
            { r with amount := amt, last_updated := now } else r := by
      simp [update_member, List.getElem?_map]
    rw [hmap, hp]
    by_cases hc : p.member_id = mid ∧ p.month = mo ∧ p.year = yr
    · obtain ⟨h1, h2, h3⟩ := hc
      refine ⟨_, rfl, ?_⟩
      simp [h1, h2, h3]
    · have hcond : (p.member_id == mid && p.month == mo && p.year == yr) = false := by
        by_contra hall
        simp only [Bool.not_eq_false, Bool.and_eq_true, beq_iff_eq] at hall
        exact hc ⟨hall.1.1, hall.1.2, hall.2⟩
      refine ⟨_, rfl, ?_⟩
      simp only [Option.map_some, hcond, if_false]
      refine ⟨rfl, rfl, rfl, rfl, rfl, fun _ => rfl, ?_⟩
      intro h1 h2 h3
      exact absurd ⟨h1, h2, h3⟩ hc

/-- The concrete database used by the witnesses of several claims: two
members, one prior-period row and two current-period rows. -/
def dbW : DB :=
  { members := [{ id := 10000, name := "A", phone := none, amount := 250 },
                { id := 10001, name := "B", phone := none, amount := 250 }],
    payments := [{ pid := 1, member_id := 10000, month := 1, year := 2025,
                   status := "Paid", amount := 250, last_updated := "t0" },
                 { pid := 2, member_id := 10000, month := 2, year := 2025,
                   status := "Unpaid", amount := 250, last_updated := "t1" },
                 { pid := 3, member_id := 10001, month := 2, year := 2025,
                   status := "Unpaid", amount := 250, last_updated := "t1" }],
    nextPid := 4, lastRunMonth := some "02-2025" }

/-- Witness for Claim C3: member 10000 exists in dbW, and update_member at
(2, 2025) keeps the updated member present with the new fields. -/
theorem update_member_frame_witness :
    memberExists dbW.members 10000 = true ∧
    (∃ m ∈ (update_member 10000 "Ali" (some "0300") 300 2 2025 "t2" dbW).members, m.id = 10000) ∧
    (∀ m ∈ (update_member 10000 "Ali" (some "0300") 300 2 2025 "t2" dbW).members,
        m.id = 10000 → m.name = "Ali" ∧ m.phone = some "0300" ∧ m.amount = 300) :=
  ⟨by decide,
   (update_member_frame dbW 10000 "Ali" (some "0300") 300 2 2025 "t2" (by decide)).1,
   (update_member_frame dbW 10000 "Ali" (some "0300") 300 2 2025 "t2" (by decide)).2.1⟩

theorem memberExists_eq_false_iff (ms : List Member) (mid : Nat) :
    memberExists ms mid = false ↔ ∀ m ∈ ms, m.id ≠ mid := by
  simp [memberExists]

theorem rowExists_eq_false_iff (ps : List PaymentRow) (mid mo yr : Nat) :
    rowExists ps mid mo yr = false ↔
      ¬ ∃ p ∈ ps, p.member_id = mid ∧ p.month = mo ∧ p.year = yr := by
  rw [← rowExists_iff]
  cases h : rowExists ps mid mo yr <;> simp

/-- Behaviour of add_member when the generated id is fresh and no
current-period row carries it: exactly a member row and a payment row are
appended, and the payment row copies the new member's amount. -/
theorem add_member_spec (mid : Nat) (name : String) (phone : Option String) (amount : Rat)
    (mo yr : Nat) (now : String) (db : DB)
    (hfresh : memberExists db.members mid = false)
    (hrow : rowExists db.payments mid mo yr = false) :
    add_member mid name phone amount mo yr now db =
      { members := db.members ++ [{ id := mid, name := name, phone := phone, amount := amount }],
        payments := db.payments ++
          [{ pid := db.nextPid, member_id := mid, month := mo, year := yr,
             status := "Unpaid", amount := amount, last_updated := now }],
        nextPid := db.nextPid + 1,
        lastRunMonth := db.lastRunMonth } := by
  have hfind : (db.members ++
      [({ id := mid, name := name, phone := phone, amount := amount } : Member)]).find?
        (fun m => m.id == mid) =
      some ({ id := mid, name := name, phone := phone, amount := amount } : Member) := by
    rw [List.find?_append]
    have h1 : db.members.find? (fun m => m.id == mid) = none := by
      rw [List.find?_eq_none]
      intro m hm
      simp only [beq_iff_eq]
      exact (memberExists_eq_false_iff db.members mid).mp hfresh m hm
    rw [h1]
    simp
  simp only [add_member, ensure_payments_for_member_month]
  rw [if_neg (by simp [hrow])]
  simp [findMemberAmount, hfind]

/-- Claim C9: the Add Member form handler rejects a name that is empty
after trimming with no change at all to the database, and for a non-empty
trimmed name (given a fresh generated id and no pre-existing current-period
row for it) it inserts exactly one member row carrying the trimmed name and
the given amount and exactly one payment row for the current period with
status 'Unpaid', the member's amount and last_updated = now. -/
theorem add_member_validation (rawName rawPhone : String) (amount : Rat) (mid mo yr : Nat)
    (now : String) (db : DB)
    (hfresh : memberExists db.members mid = false)
    (hrow : rowExists db.payments mid mo yr = false) :
    (pyStrip rawName = "" → addMemberForm rawName rawPhone amount mid mo yr now db = db) ∧
    (pyStrip rawName ≠ "" →
      (addMemberForm rawName rawPhone amount mid mo yr now db).members =
        db.members ++ [{ id := mid, name := pyStrip rawName,
                         phone := if rawPhone = "" then none else some (pyStrip rawPhone),
                         amount := amount }] ∧
      (addMemberForm rawName rawPhone amount mid mo yr now db).payments =
        db.payments ++ [{ pid := db.nextPid, member_id := mid, month := mo, year := yr,
                          status := "Unpaid", amount := amount, last_updated := now }]) := by
  constructor
  · intro h
    simp [addMemberForm, h]
  · intro h
    simp only [addMemberForm, if_neg h]
    rw [add_member_spec mid (pyStrip rawName) (if rawPhone = "" then none else some (pyStrip rawPhone))
      amount mo yr now db hfresh hrow]
    exact ⟨rfl, rfl⟩

/-- Witness for Claim C9: in dbW with fresh id 10002 in period (2, 2025),
a blank name changes nothing, and the name " Carol " is inserted trimmed
together with its current-period Unpaid row. -/
theorem add_member_validation_witness :
    (pyStrip "  " = "" → addMemberForm "  " "" 250 10002 2 2025 "t9" dbW = dbW) ∧
    ((pyStrip " Carol " = "" → addMemberForm " Carol " "" 300 10002 2 2025 "t9" dbW = dbW) ∧
      (pyStrip " Carol " ≠ "" →
        (addMemberForm " Carol " "" 300 10002 2 2025 "t9" dbW).members =
          dbW.members ++ [{ id := 10002, name := pyStrip " Carol ",
                            phone := if "" = "" then none else some (pyStrip ""),
                            amount := 300 }] ∧
        (addMemberForm " Carol " "" 300 10002 2 2025 "t9" dbW).payments =
          dbW.payments ++ [{ pid := dbW.nextPid, member_id := 10002, month := 2, year := 2025,
                             status := "Unpaid", amount := 300, last_updated := "t9" }])) :=
  ⟨(add_member_validation "  " "" 250 10002 2 2025 "t9" dbW (by decide) (by decide)).1,
   add_member_validation " Carol " "" 300 10002 2 2025 "t9" dbW (by decide) (by decide)⟩

/-- If some draw at or after position k hits a free id, the loop started at
k succeeds with a free id that is one of the draws. -/
theorem generate_unique_id_succeeds (ms : List Member) (stream : Nat → Nat) :
    ∀ n k, memberExists ms (stream (k + n)) = false →
      ∃ r, generate_unique_id ms stream (n + 1) k = some r ∧
        memberExists ms r = false ∧ ∃ j, r = stream j := by
  intro n
  induction n with
  | zero =>
    intro k h
    rw [Nat.add_zero] at h
    exact ⟨stream k, by simp [generate_unique_id, h], h, ⟨k, rfl⟩⟩
  | succ n ih =>
    intro k h
    by_cases hk : memberExists ms (stream k) = true
    · have h2 : memberExists ms (stream ((k + 1) + n)) = false := by
        have : (k + 1) + n = k + (n + 1) := by omega
        rw [this]
        exact h
      obtain ⟨r, hr, hfr, hj⟩ := ih (k + 1) h2
      refine ⟨r, ?_, hfr, hj⟩
      have hstep : generate_unique_id ms stream (n + 1 + 1) k =
          if memberExists ms (stream k) then generate_unique_id ms stream (n + 1) (k + 1)
          else some (stream k) := rfl
      rw [hstep, if_pos hk, hr]
    · have hk2 : memberExists ms (stream k) = false := by simpa using hk
      exact ⟨stream k, by simp [generate_unique_id, hk2], hk2, ⟨k, rfl⟩⟩

/-- Claim C10: whenever at least one id in [10000, 99999] is unused in the
member store, the generate_unique_id loop terminates (some finite fuel
suffices) for any draw stream that stays in the range and eventually
produces each value of the range (as random.randint does with probability
one), and it returns an id in the range that is not present in the store. -/
theorem generate_unique_id_fresh (ms : List Member) (stream : Nat → Nat)
    (hrange : ∀ n, 10000 ≤ stream n ∧ stream n ≤ 99999)
    (hfair : ∀ v, 10000 ≤ v → v ≤ 99999 → ∃ n, stream n = v)
    (hfree : ∃ v, 10000 ≤ v ∧ v ≤ 99999 ∧ memberExists ms v = false) :
    ∃ fuel r, generate_unique_id ms stream fuel 0 = some r ∧
      10000 ≤ r ∧ r ≤ 99999 ∧ memberExists ms r = false := by
  obtain ⟨v, hv1, hv2, hv3⟩ := hfree
  obtain ⟨n, hn⟩ := hfair v hv1 hv2
  have h0 : memberExists ms (stream (0 + n)) = false := by
    rw [Nat.zero_add, hn]
    exact hv3
  obtain ⟨r, hr, hfr, j, hj⟩ := generate_unique_id_succeeds ms stream n 0 h0
  refine ⟨n + 1, r, hr, ?_, ?_, hfr⟩
  · rw [hj]; exact (hrange j).1
  · rw [hj]; exact (hrange j).2

/-- Witness for Claim C10: a store holding ids 10000 and 10001, with the
enumerating stream 10000 + (n mod 90000); the loop finds a fresh id. -/
theorem generate_unique_id_fresh_witness :
    ∃ fuel r, generate_unique_id
        [{ id := 10000, name := "A", phone := none, amount := 250 },
         { id := 10001, name := "B", phone := none, amount := 250 }]
        (fun n => 10000 + n % 90000) fuel 0 = some r ∧
      10000 ≤ r ∧ r ≤ 99999 ∧
      memberExists
        [{ id := 10000, name := "A", phone := none, amount := 250 },
         { id := 10001, name := "B", phone := none, amount := 250 }] r = false :=
  generate_unique_id_fresh _ (fun n => 10000 + n % 90000)
    (fun n => by
      constructor
      · show 10000 ≤ 10000 + n % 90000
        omega
      · show 10000 + n % 90000 ≤ 99999
        have : n % 90000 < 90000 := Nat.mod_lt n (by omega)
        omega)
    (fun v hv1 hv2 => ⟨v - 10000, by
      show 10000 + (v - 10000) % 90000 = v
      have : (v - 10000) % 90000 = v - 10000 := Nat.mod_eq_of_lt (by omega)
      omega⟩)
    ⟨10002, by omega, by omega, by decide⟩

/-- Number of payment rows for one (member_id, month, year) key. -/
def countRows (ps : List PaymentRow) (mid mo yr : Nat) : Nat :=
  (ps.filter fun p => p.member_id == mid && p.month == mo && p.year == yr).length

theorem countRows_append (ps qs : List PaymentRow) (mid mo yr : Nat) :
    countRows (ps ++ qs) mid mo yr = countRows ps mid mo yr + countRows qs mid mo yr := by
  simp [countRows, List.filter_append]

theorem countRows_eq_zero_of_not_rowExists (ps : List PaymentRow) (mid mo yr : Nat)
    (h : rowExists ps mid mo yr = false) : countRows ps mid mo yr = 0 := by
  simp only [countRows, List.length_eq_zero, List.filter_eq_nil_iff]
  intro p hp hcond
  rw [rowExists_eq_false_iff] at h
  simp only [Bool.and_eq_true, beq_iff_eq] at hcond
  exact h ⟨p, hp, hcond.1.1, hcond.1.2, hcond.2⟩

theorem countRows_pos_of_rowExists (ps : List PaymentRow) (mid mo yr : Nat)
    (h : rowExists ps mid mo yr = true) : 1 ≤ countRows ps mid mo yr := by
  obtain ⟨p, hp, h1, h2, h3⟩ := (rowExists_iff ps mid mo yr).mp h
  have : p ∈ ps.filter fun p => p.member_id == mid && p.month == mo && p.year == yr := by
    rw [List.mem_filter]
    exact ⟨hp, by simp [h1, h2, h3]⟩
  exact List.length_pos_of_mem this

theorem rowExists_false_of_append (ps qs : List PaymentRow) (mid mo yr : Nat)
    (h : rowExists (ps ++ qs) mid mo yr = false) : rowExists ps mid mo yr = false := by
  rw [rowExists_append, Bool.or_eq_false_iff] at h
  exact h.1

/-- Structure of the bulk-fill loop's result: it only appends rows, and
every appended row is an Unpaid current-period row stamped now, for a
member of the scanned snapshot that had no key-matching row in the
original accumulator, with the member's snapshot amount. -/
theorem epfm_fold_append (mo yr : Nat) (now : String) :
    ∀ (ms : List Member) (acc : List PaymentRow × Nat),
      ∃ new, (ms.foldl (epfm_step mo yr now) acc).1 = acc.1 ++ new ∧
        ∀ r ∈ new, r.status = "Unpaid" ∧ r.last_updated = now ∧ r.month = mo ∧ r.year = yr ∧
          rowExists acc.1 r.member_id mo yr = false ∧
          ∃ m ∈ ms, r.member_id = m.id ∧ r.amount = m.amount := by
  intro ms
  induction ms with
  | nil => exact fun acc => ⟨[], by simp⟩
  | cons m ms ih =>
    intro acc
    rw [List.foldl_cons]
    by_cases hex : rowExists acc.1 m.id mo yr = true
    · have hstep : epfm_step mo yr now acc m = acc := by
        simp [epfm_step, hex]
      rw [hstep]
      obtain ⟨new, h1, h2⟩ := ih acc
      refine ⟨new, h1, fun r hr => ?_⟩
      obtain ⟨a1, a2, a3, a4, a5, mm, hmm, b1, b2⟩ := h2 r hr
      exact ⟨a1, a2, a3, a4, a5, mm, List.mem_cons_of_mem m hmm, b1, b2⟩
    · have hex2 : rowExists acc.1 m.id mo yr = false := by simpa using hex
      have hstep : epfm_step mo yr now acc m =
          (acc.1 ++ [{ pid := acc.2, member_id := m.id, month := mo, year := yr,
                       status := "Unpaid", amount := m.amount, last_updated := now }],
           acc.2 + 1) := by
        simp [epfm_step, hex2]
      rw [hstep]
      obtain ⟨new, h1, h2⟩ := ih _
      refine ⟨{ pid := acc.2, member_id := m.id, month := mo, year := yr,
                status := "Unpaid", amount := m.amount, last_updated := now } :: new, ?_, ?_⟩
      · rw [h1]
        simp
      · intro r hr
        rcases List.mem_cons.mp hr with hr | hr
        · subst hr
          exact ⟨rfl, rfl, rfl, rfl, hex2, m, List.mem_cons_self m ms, rfl, rfl⟩
        · obtain ⟨a1, a2, a3, a4, a5, mm, hmm, b1, b2⟩ := h2 r hr
          refine ⟨a1, a2, a3, a4, rowExists_false_of_append _ _ _ _ _ a5,
            mm, List.mem_cons_of_mem m hmm, b1, b2⟩

/-- After the bulk-fill loop, every scanned member has a current-period
row. -/
theorem epfm_fold_complete (mo yr : Nat) (now : String) :
    ∀ (ms : List Member) (acc : List PaymentRow × Nat) (m : Member), m ∈ ms →
      rowExists (ms.foldl (epfm_step mo yr now) acc).1 m.id mo yr = true := by
  intro ms
  induction ms with
  | nil => intro acc m hm; cases hm
  | cons m0 ms ih =>
    intro acc m hm
    rw [List.foldl_cons]
    rcases List.mem_cons.mp hm with hm | hm
    · subst hm
      have hstep : rowExists (epfm_step mo yr now acc m).1 m.id mo yr = true := by
        by_cases hex : rowExists acc.1 m.id mo yr = true
        · simp only [epfm_step, hex, if_true]
        · have hex2 : rowExists acc.1 m.id mo yr = false := by simpa using hex
          have hs : (epfm_step mo yr now acc m).1 = acc.1 ++
              [{ pid := acc.2, member_id := m.id, month := mo, year := yr,
                 status := "Unpaid", amount := m.amount, last_updated := now }] := by
            simp [epfm_step, hex2]
          rw [hs, rowExists_append]
          have hone : rowExists
              [{ pid := acc.2, member_id := m.id, month := mo, year := yr,
                 status := "Unpaid", amount := m.amount, last_updated := now }] m.id mo yr
              = true := by
            simp [rowExists]
          rw [hone, Bool.or_true]
      obtain ⟨new, h1, _⟩ := epfm_fold_append mo yr now ms (epfm_step mo yr now acc m)
      rw [h1, rowExists_append, hstep]
      rfl
    · exact ih _ m hm

/-- When every scanned member already has a current-period row, the
bulk-fill loop changes nothing. -/
theorem epfm_fold_noop (mo yr : Nat) (now : String) :
    ∀ (ms : List Member) (acc : List PaymentRow × Nat),
      (∀ m ∈ ms, rowExists acc.1 m.id mo yr = true) →
      ms.foldl (epfm_step mo yr now) acc = acc := by
  intro ms
  induction ms with
  | nil => intro acc _; rfl
  | cons m ms ih =>
    intro acc h
    rw [List.foldl_cons]
    have hstep : epfm_step mo yr now acc m = acc := by
      simp [epfm_step, h m (List.mem_cons_self m ms)]
    rw [hstep]
    exact ih acc fun x hx => h x (List.mem_cons_of_mem m hx)

/-- Count of a key in a one-row table. -/
theorem countRows_singleton (r : PaymentRow) (mid mo yr : Nat) :
    countRows [r] mid mo yr =
      if r.member_id = mid ∧ r.month = mo ∧ r.year = yr then 1 else 0 := by
  by_cases h : r.member_id = mid ∧ r.month = mo ∧ r.year = yr
  · obtain ⟨h1, h2, h3⟩ := h
    simp [countRows, List.filter, h1, h2, h3]
  · have hc : (r.member_id == mid && r.month == mo && r.year == yr) = false := by
      by_contra hcc
      simp only [Bool.not_eq_false, Bool.and_eq_true, beq_iff_eq] at hcc
      exact h ⟨hcc.1.1, hcc.1.2, hcc.2⟩
    simp [countRows, List.filter, hc, h]

/-- The bulk-fill loop never creates a second row for a key that had at
most one. -/
theorem epfm_fold_count_le (mo yr : Nat) (now : String) :
    ∀ (ms : List Member) (acc : List PaymentRow × Nat),
      (∀ mid, countRows acc.1 mid mo yr ≤ 1) →
      ∀ mid, countRows (ms.foldl (epfm_step mo yr now) acc).1 mid mo yr ≤ 1 := by
  intro ms
  induction ms with
  | nil => intro acc h; exact h
  | cons m ms ih =>
    intro acc h
    rw [List.foldl_cons]
    refine ih _ ?_
    intro mid
    by_cases hex : rowExists acc.1 m.id mo yr = true
    · simp only [epfm_step, hex, if_true]
      exact h mid
    · have hex2 : rowExists acc.1 m.id mo yr = false := by simpa using hex
      have hstep : (epfm_step mo yr now acc m).1 = acc.1 ++
          [{ pid := acc.2, member_id := m.id, month := mo, year := yr,
             status := "Unpaid", amount := m.amount, last_updated := now }] := by
        simp [epfm_step, hex2]
      rw [hstep, countRows_append, countRows_singleton]
      by_cases hmid : mid = m.id
      · subst hmid
        have h0 : countRows acc.1 m.id mo yr = 0 :=
          countRows_eq_zero_of_not_rowExists acc.1 m.id mo yr hex2
        rw [h0]
        split <;> omega
      · rw [if_neg ?hneg]
        · have := h mid
          omega
        case hneg =>
          intro hcc
          exact hmid hcc.1.symm

/-- From the bounded at-most-one hypothesis (one check per stored row) to
the unbounded per-key bound. -/
theorem countRows_le_one_of_ball (ps : List PaymentRow) (mo yr : Nat)
    (h : ∀ p ∈ ps, countRows ps p.member_id mo yr ≤ 1) :
    ∀ mid, countRows ps mid mo yr ≤ 1 := by
  intro mid
  by_cases hex : rowExists ps mid mo yr = true
  · obtain ⟨p, hp, h1, _, _⟩ := (rowExists_iff ps mid mo yr).mp hex
    rw [← h1]
    exact h p hp
  · have h0 : countRows ps mid mo yr = 0 :=
      countRows_eq_zero_of_not_rowExists ps mid mo yr (by simpa using hex)
    omega

/-- What Claim C1 asserts of a database db2 produced from db by a bulk
rollover entry point at period (mo, yr) with timestamp now: members are
untouched, every member ends with exactly one current-period row, and the
payments table is the old table plus only new rows, each Unpaid, stamped
now, for the current period, for a member that had no such row, with that
member's current amount. -/
def RolloverPost (db db2 : DB) (mo yr : Nat) (now : String) : Prop :=
  db2.members = db.members ∧
  (∀ m ∈ db.members, countRows db2.payments m.id mo yr = 1) ∧
  ∃ new, db2.payments = db.payments ++ new ∧
    ∀ r ∈ new, r.status = "Unpaid" ∧ r.last_updated = now ∧ r.month = mo ∧ r.year = yr ∧
      rowExists db.payments r.member_id mo yr = false ∧
      ∃ m ∈ db.members, r.member_id = m.id ∧ r.amount = m.amount

/-- Claim C1: after the bulk rollover entry points run, every member has
exactly one current-period ledger row; created rows are Unpaid with the
member's current amount and last_updated = now, and no pre-existing row of
any period is modified. Hypotheses: the table starts with at most one row
per key for the current period, and a watermark already equal to the
current period is only possible when the current period is already fully
materialized (true in every state the program reaches, since the watermark
is advanced only after a bulk fill and rows are only deleted together with
their member). -/
theorem rollover_completeness (mo yr : Nat) (now : String) (db : DB)
    (h1 : ∀ p ∈ db.payments, countRows db.payments p.member_id mo yr ≤ 1)
    (h2 : db.lastRunMonth = some (monthKey mo yr) →
      ∀ m ∈ db.members, rowExists db.payments m.id mo yr = true) :
    RolloverPost db (ensure_payments_for_month mo yr now db) mo yr now ∧
    RolloverPost db (ensure_monthly_rollover mo yr now db) mo yr now := by
  have h1 := countRows_le_one_of_ball db.payments mo yr h1
  have hepfm : RolloverPost db (ensure_payments_for_month mo yr now db) mo yr now := by
    refine ⟨rfl, ?_, ?_⟩
    · intro m hm
      have hle := epfm_fold_count_le mo yr now db.members (db.payments, db.nextPid) h1 m.id
      have hge : rowExists
          (db.members.foldl (epfm_step mo yr now) (db.payments, db.nextPid)).1 m.id mo yr
          = true :=
        epfm_fold_complete mo yr now db.members (db.payments, db.nextPid) m hm
      have hpos := countRows_pos_of_rowExists _ m.id mo yr hge
      show countRows
        (db.members.foldl (epfm_step mo yr now) (db.payments, db.nextPid)).1 m.id mo yr = 1
      omega
    · exact epfm_fold_append mo yr now db.members (db.payments, db.nextPid)
  refine ⟨hepfm, ?_⟩
  by_cases heq : db.lastRunMonth = some (monthKey mo yr)
  · have hid : ensure_monthly_rollover mo yr now db = db := by
      simp [ensure_monthly_rollover, heq]
    rw [hid]
    refine ⟨rfl, ?_, ⟨[], by simp, by simp⟩⟩
    intro m hm
    have hpos := countRows_pos_of_rowExists db.payments m.id mo yr (h2 heq m hm)
    have hle := h1 m.id
    omega
  · have hne : ensure_monthly_rollover mo yr now db =
        { ensure_payments_for_month mo yr now db with
          lastRunMonth := some (monthKey mo yr) } := by
      simp [ensure_monthly_rollover, heq]
    rw [hne]
    exact hepfm

/-- Witness for Claim C1: the rollover at (2, 2025) on dbW, whose watermark
already names the period and whose ledger is complete. -/
theorem rollover_completeness_witness :
    RolloverPost dbW (ensure_payments_for_month 2 2025 "t4" dbW) 2 2025 "t4" ∧
    RolloverPost dbW (ensure_monthly_rollover 2 2025 "t4" dbW) 2 2025 "t4" :=
  rollover_completeness 2 2025 "t4" dbW (by decide) (fun _ => by decide)

/-- A database whose current period is fully materialized is a fixed point
of the bulk fill. -/
theorem epfm_eq_self_of_complete (mo yr : Nat) (nw : String) (db : DB)
    (h : ∀ m ∈ db.members, rowExists db.payments m.id mo yr = true) :
    ensure_payments_for_month mo yr nw db = db := by
  unfold ensure_payments_for_month
  rw [epfm_fold_noop mo yr nw db.members (db.payments, db.nextPid) h]

/-- Calling the bulk fill twice is the same as calling it once, whatever
the second call's timestamp. -/
theorem epfm_idem (mo yr : Nat) (now nw : String) (db : DB) :
    ensure_payments_for_month mo yr nw (ensure_payments_for_month mo yr now db) =
      ensure_payments_for_month mo yr now db := by
  apply epfm_eq_self_of_complete
  intro m hm
  exact epfm_fold_complete mo yr now db.members (db.payments, db.nextPid) m hm

/-- The watermark names the current period right after a rollover call. -/
theorem rollover_lastRun (mo yr : Nat) (now : String) (db : DB) :
    (ensure_monthly_rollover mo yr now db).lastRunMonth = some (monthKey mo yr) := by
  unfold ensure_monthly_rollover
  by_cases heq : db.lastRunMonth = some (monthKey mo yr)
  · rw [if_pos heq]
    exact heq
  · rw [if_neg heq]

/-- Calling the rollover twice is the same as calling it once, whatever the
second call's timestamp. -/
theorem rollover_idem_pair (mo yr : Nat) (now nw : String) (db : DB) :
    ensure_monthly_rollover mo yr nw (ensure_monthly_rollover mo yr now db) =
      ensure_monthly_rollover mo yr now db := by
  have h := rollover_lastRun mo yr now db
  conv_lhs => rw [ensure_monthly_rollover]
  rw [if_pos h]

/-- N consecutive calls of f collapsing on a fixed point of f. -/
def applyCalls (f : String → DB → DB) (nows : List String) (db : DB) : DB :=
  nows.foldl (fun d nw => f nw d) db

theorem applyCalls_fixed (f : String → DB → DB) (db : DB)
    (h : ∀ nw, f nw db = db) : ∀ nows, applyCalls f nows db = db := by
  intro nows
  induction nows with
  | nil => rfl
  | cons nw rest ih =>
    show applyCalls f rest (f nw db) = db
    rw [h nw]
    exact ih

/-- Claim C2: for every starting state and fixed current period, any number
of further consecutive calls of the bulk rollover entry points within the
period (with arbitrary timestamps) leaves the database exactly as after the
first call — same members table, same payments table (no rows inserted or
changed at all), same autoincrement counter and same watermark. -/
theorem rollover_idempotent (mo yr : Nat) (now : String) (nows : List String) (db : DB) :
    applyCalls (ensure_payments_for_month mo yr) nows
        (ensure_payments_for_month mo yr now db) =
      ensure_payments_for_month mo yr now db ∧
    applyCalls (ensure_monthly_rollover mo yr) nows
        (ensure_monthly_rollover mo yr now db) =
      ensure_monthly_rollover mo yr now db := by
  constructor
  · exact applyCalls_fixed _ _ (fun nw => epfm_idem mo yr now nw db) nows
  · exact applyCalls_fixed _ _ (fun nw => rollover_idem_pair mo yr now nw db) nows

/-- The ledger key of a payment row. -/
def payKey (p : PaymentRow) : Nat × Nat × Nat := (p.member_id, p.month, p.year)

theorem rowExists_false_key_not_mem (ps : List PaymentRow) (mid mo yr : Nat)
    (h : rowExists ps mid mo yr = false) : (mid, mo, yr) ∉ ps.map payKey := by
  intro hmem
  rw [rowExists_eq_false_iff] at h
  obtain ⟨p, hp, hk⟩ := List.mem_map.mp hmem
  simp only [payKey, Prod.mk.injEq] at hk
  exact h ⟨p, hp, hk.1, hk.2.1, hk.2.2⟩

theorem nodup_append_singleton {α : Type} (l : List α) (a : α)
    (h : l.Nodup) (ha : a ∉ l) : (l ++ [a]).Nodup := by
  rw [List.nodup_append]
  refine ⟨h, List.nodup_singleton a, ?_⟩
  intro x hx hxa
  rw [List.mem_singleton] at hxa
  subst hxa
  exact ha hx

/-- The bulk-fill loop preserves distinctness of ledger keys. -/
theorem epfm_fold_keys_nodup (mo yr : Nat) (now : String) :
    ∀ (ms : List Member) (acc : List PaymentRow × Nat),
      (acc.1.map payKey).Nodup → ((ms.foldl (epfm_step mo yr now) acc).1.map payKey).Nodup := by
  intro ms
  induction ms with
  | nil => intro acc h; exact h
  | cons m ms ih =>
    intro acc h
    rw [List.foldl_cons]
    refine ih _ ?_
    by_cases hex : rowExists acc.1 m.id mo yr = true
    · simp only [epfm_step, hex, if_true]
      exact h
    · have hex2 : rowExists acc.1 m.id mo yr = false := by simpa using hex
      have hstep : (epfm_step mo yr now acc m).1 = acc.1 ++
          [{ pid := acc.2, member_id := m.id, month := mo, year := yr,
             status := "Unpaid", amount := m.amount, last_updated := now }] := by
        simp [epfm_step, hex2]
      rw [hstep, List.map_append]
      exact nodup_append_singleton _ _ h (rowExists_false_key_not_mem _ _ _ _ hex2)

/-- The single-member fill preserves distinctness of ledger keys. -/
theorem ensure_member_month_keys_nodup (mid mo yr : Nat) (now : String) (db : DB)
    (h : (db.payments.map payKey).Nodup) :
    ((ensure_payments_for_member_month mid mo yr now db).payments.map payKey).Nodup := by
  unfold ensure_payments_for_member_month
  by_cases hex : rowExists db.payments mid mo yr = true
  · rw [if_pos hex]
    exact h
  · have hex2 : rowExists db.payments mid mo yr = false := by simpa using hex
    rw [if_neg (by simp [hex2])]
    simp only [List.map_append]
    exact nodup_append_singleton _ _ h (rowExists_false_key_not_mem _ _ _ _ hex2)

theorem ensure_member_month_members (mid mo yr : Nat) (now : String) (db : DB) :
    (ensure_payments_for_member_month mid mo yr now db).members = db.members := by
  unfold ensure_payments_for_member_month
  by_cases hex : rowExists db.payments mid mo yr = true
  · rw [if_pos hex]
  · rw [if_neg (by simpa using hex)]

theorem update_member_ids (db : DB) (mid : Nat) (name : String) (phone : Option String)
    (amount : Rat) (mo yr : Nat) (now : String) :
    ((update_member mid name phone amount mo yr now db).members.map fun m => m.id) =
      db.members.map fun m => m.id := by
  simp only [update_member, List.map_map]
  apply List.map_congr_left
  intro m _
  by_cases h : m.id = mid <;> simp [h]

theorem update_member_keys (db : DB) (mid : Nat) (name : String) (phone : Option String)
    (amount : Rat) (mo yr : Nat) (now : String) :
    ((update_member mid name phone amount mo yr now db).payments.map payKey) =
      db.payments.map payKey := by
  simp only [update_member, List.map_map]
  apply List.map_congr_left
  intro p _
  simp only [Function.comp_apply]
  split <;> rfl

theorem mark_paid_keys (db : DB) (mid mo yr : Nat) (now : String) :
    ((mark_paid_for_member_current_month mid mo yr now db).payments.map payKey) =
      db.payments.map payKey := by
  simp only [mark_paid_for_member_current_month, List.map_map]
  apply List.map_congr_left
  intro p _
  simp only [Function.comp_apply]
  split <;> rfl

theorem mark_unpaid_keys (db : DB) (mid mo yr : Nat) (now : String) :
    ((mark_unpaid_for_member_current_month mid mo yr now db).payments.map payKey) =
      db.payments.map payKey := by
  simp only [mark_unpaid_for_member_current_month, List.map_map]
  apply List.map_congr_left
  intro p _
  simp only [Function.comp_apply]
  split <;> rfl

theorem memberExists_false_not_mem (ms : List Member) (mid : Nat)
    (h : memberExists ms mid = false) : mid ∉ ms.map fun m => m.id := by
  intro hm
  obtain ⟨m, hmem, hid⟩ := List.mem_map.mp hm
  exact (memberExists_eq_false_iff ms mid).mp h m hmem hid

theorem update_member_pay_mids (db : DB) (mid : Nat) (name : String) (phone : Option String)
    (amount : Rat) (mo yr : Nat) (now : String) :
    ((update_member mid name phone amount mo yr now db).payments.map fun p => p.member_id) =
      db.payments.map fun p => p.member_id := by
  simp only [update_member, List.map_map]
  apply List.map_congr_left
  intro p _
  simp only [Function.comp_apply]
  split <;> rfl

theorem mark_paid_pay_mids (db : DB) (mid mo yr : Nat) (now : String) :
    ((mark_paid_for_member_current_month mid mo yr now db).payments.map fun p => p.member_id) =
      db.payments.map fun p => p.member_id := by
  simp only [mark_paid_for_member_current_month, List.map_map]
  apply List.map_congr_left
  intro p _
  simp only [Function.comp_apply]
  split <;> rfl

theorem mark_unpaid_pay_mids (db : DB) (mid mo yr : Nat) (now : String) :
    ((mark_unpaid_for_member_current_month mid mo yr now db).payments.map fun p => p.member_id) =
      db.payments.map fun p => p.member_id := by
  simp only [mark_unpaid_for_member_current_month, List.map_map]
  apply List.map_congr_left
  intro p _
  simp only [Function.comp_apply]
  split <;> rfl

/-- One user-triggered operation of the application, relating the database
before and after. The add constructor carries the facts established for
the id produced by generate_unique_id (see generate_unique_id_fresh): it
is in [10000, 99999] and absent from the member store. The single-member
fill appears only inside add_member, which is its only call site in the
program. -/
inductive Step : DB → DB → Prop where
  | add (db : DB) (rawName rawPhone : String) (amount : Rat) (mid mo yr : Nat) (now : String)
      (hfresh : memberExists db.members mid = false)
      (hlo : 10000 ≤ mid) (hhi : mid ≤ 99999) :
      Step db (addMemberForm rawName rawPhone amount mid mo yr now db)
  | update (db : DB) (mid : Nat) (name : String) (phone : Option String) (amount : Rat)
      (mo yr : Nat) (now : String) :
      Step db (update_member mid name phone amount mo yr now db)
  | del (db : DB) (mid : Nat) : Step db (delete_member mid db)
  | rollover (db : DB) (mo yr : Nat) (now : String) :
      Step db (ensure_monthly_rollover mo yr now db)
  | bulkFill (db : DB) (mo yr : Nat) (now : String) :
      Step db (ensure_payments_for_month mo yr now db)
  | markPaid (db : DB) (mid mo yr : Nat) (now : String) :
      Step db (mark_paid_for_member_current_month mid mo yr now db)
  | markUnpaid (db : DB) (mid mo yr : Nat) (now : String) :
      Step db (mark_unpaid_for_member_current_month mid mo yr now db)
  | clear (db : DB) : Step db (clear_all_data db)

/-- Database states reachable from the fresh database by the program's
operations. -/
inductive Reachable : DB → Prop where
  | init : Reachable initialDB
  | step {db db2 : DB} : Reachable db → Step db db2 → Reachable db2

/-- Uniqueness is preserved by every single operation. -/
theorem step_preserves_uniqueness {db db2 : DB} (hs : Step db db2)
    (hm : (db.members.map fun m => m.id).Nodup)
    (hk : (db.payments.map payKey).Nodup) :
    ((db2.members.map fun m => m.id).Nodup) ∧ ((db2.payments.map payKey).Nodup) := by
  cases hs with
  | add rawName rawPhone amount mid mo yr now hfresh hlo hhi =>
    by_cases hempty : pyStrip rawName = ""
    · simp only [addMemberForm, if_pos hempty]
      exact ⟨hm, hk⟩
    · simp only [addMemberForm, if_neg hempty, add_member]
      constructor
      · rw [ensure_member_month_members]
        simp only [List.map_append, List.map_cons, List.map_nil]
        exact nodup_append_singleton _ _ hm (memberExists_false_not_mem _ _ hfresh)
      · exact ensure_member_month_keys_nodup mid mo yr now _ hk
  | update mid name phone amount mo yr now =>
    rw [update_member_ids, update_member_keys]
    exact ⟨hm, hk⟩
  | del mid =>
    constructor
    · exact ((List.filter_sublist db.members).map fun m => m.id).nodup hm
    · exact ((List.filter_sublist db.payments).map payKey).nodup hk
  | rollover mo yr now =>
    by_cases heq : db.lastRunMonth = some (monthKey mo yr)
    · simp only [ensure_monthly_rollover, if_pos heq]
      exact ⟨hm, hk⟩
    · simp only [ensure_monthly_rollover, if_neg heq]
      exact ⟨hm, epfm_fold_keys_nodup mo yr now db.members (db.payments, db.nextPid) hk⟩
  | bulkFill mo yr now =>
    exact ⟨hm, epfm_fold_keys_nodup mo yr now db.members (db.payments, db.nextPid) hk⟩
  | markPaid mid mo yr now =>
    rw [mark_paid_keys]
    exact ⟨hm, hk⟩
  | markUnpaid mid mo yr now =>
    rw [mark_unpaid_keys]
    exact ⟨hm, hk⟩
  | clear =>
    exact ⟨List.nodup_nil, List.nodup_nil⟩

/-- Claim C4: in every state reachable by the program's operations, no two
members share an id and no two payment rows share the same
(member_id, month, year) key. -/
theorem uniqueness_invariant (db : DB) (h : Reachable db) :
    ((db.members.map fun m => m.id).Nodup) ∧ ((db.payments.map payKey).Nodup) := by
  induction h with
  | init => exact ⟨List.nodup_nil, List.nodup_nil⟩
  | step _ hs ih => exact step_preserves_uniqueness hs ih.1 ih.2

/-- Witness for Claim C4: the state reached by adding member 10000 and then
marking it paid satisfies both uniqueness properties. -/
theorem uniqueness_invariant_witness :
    (((mark_paid_for_member_current_month 10000 5 2025 "t2"
        (addMemberForm "Ali" "" 250 10000 5 2025 "t1" initialDB)).members.map
          fun m => m.id).Nodup) ∧
    (((mark_paid_for_member_current_month 10000 5 2025 "t2"
        (addMemberForm "Ali" "" 250 10000 5 2025 "t1" initialDB)).payments.map payKey).Nodup) :=
  uniqueness_invariant _
    (Reachable.step
      (Reachable.step Reachable.init
        (Step.add initialDB "Ali" "" 250 10000 5 2025 "t1" (by decide) (by decide) (by decide)))
      (Step.markPaid _ 10000 5 2025 "t2"))

/-- Referential integrity: every payment row's member_id is the id of some
member in the members table. -/
def RefIntegrity (db : DB) : Prop :=
  ∀ p ∈ db.payments, p.member_id ∈ db.members.map fun m => m.id

instance (db : DB) : Decidable (RefIntegrity db) := by
  unfold RefIntegrity
  infer_instance

/-- Counterexample to Claim C6: calling ensure_payments_for_member_month
with the absent member id 42 on the empty database inserts an orphan
payment row — member_id 42, the fallback amount 250, status Unpaid — while
the members table stays empty, so the rows of the resulting state do not
all reference existing members. -/
theorem orphan_row_counterexample :
    ¬ RefIntegrity (ensure_payments_for_member_month 42 5 2025 "t" initialDB) ∧
    (ensure_payments_for_member_month 42 5 2025 "t" initialDB).members = [] ∧
    ((ensure_payments_for_member_month 42 5 2025 "t" initialDB).payments.map payKey) =
      [(42, 5, 2025)] ∧
    ∀ p ∈ (ensure_payments_for_member_month 42 5 2025 "t" initialDB).payments,
      p.amount = 250 ∧ p.status = "Unpaid" := by
  decide

/-- The single-member fill preserves referential integrity when its
argument is the id of an existing member. -/
theorem ensure_member_month_refint (mid mo yr : Nat) (now : String) (db : DB)
    (hmid : mid ∈ db.members.map fun m => m.id) (ih : RefIntegrity db) :
    RefIntegrity (ensure_payments_for_member_month mid mo yr now db) := by
  intro p hp
  rw [ensure_member_month_members]
  unfold ensure_payments_for_member_month at hp
  split at hp
  · exact ih p hp
  · rcases List.mem_append.mp hp with hp | hp
    · exact ih p hp
    · rw [List.mem_singleton] at hp
      subst hp
      exact hmid

/-- Referential integrity is preserved by every operation of the program
(where the single-member fill runs only inside add_member, on the id of the
member just inserted). -/
theorem step_preserves_refintegrity {db db2 : DB} (hs : Step db db2)
    (ih : RefIntegrity db) : RefIntegrity db2 := by
  cases hs with
  | add rawName rawPhone amount mid mo yr now hfresh hlo hhi =>
    by_cases hempty : pyStrip rawName = ""
    · simp only [addMemberForm, if_pos hempty]
      exact ih
    · simp only [addMemberForm, if_neg hempty, add_member]
      apply ensure_member_month_refint
      · simp
      · intro p hp
        have hp2 : p ∈ db.payments := hp
        have := ih p hp2
        simp only [List.map_append]
        exact List.mem_append_left _ this
  | update mid name phone amount mo yr now =>
    intro p hp
    rw [update_member_ids]
    have hmem : p.member_id ∈
        (update_member mid name phone amount mo yr now db).payments.map fun q => q.member_id :=
      List.mem_map_of_mem _ hp
    rw [update_member_pay_mids] at hmem
    obtain ⟨q, hq, hqe⟩ := List.mem_map.mp hmem
    rw [← hqe]
    exact ih q hq
  | del mid =>
    intro p hp
    have hp2 : p ∈ db.payments.filter fun q => !(q.member_id == mid) := hp
    rw [List.mem_filter] at hp2
    obtain ⟨hmem, hcond⟩ := hp2
    have hne : p.member_id ≠ mid := by simpa using hcond
    obtain ⟨m, hm, hme⟩ := List.mem_map.mp (ih p hmem)
    show p.member_id ∈ (db.members.filter fun m2 => !(m2.id == mid)).map fun m2 => m2.id
    refine List.mem_map.mpr ⟨m, ?_, hme⟩
    rw [List.mem_filter]
    refine ⟨hm, ?_⟩
    simp [hme, hne]
  | rollover mo yr now =>
    by_cases heq : db.lastRunMonth = some (monthKey mo yr)
    · simp only [ensure_monthly_rollover, if_pos heq]
      exact ih
    · simp only [ensure_monthly_rollover, if_neg heq]
      intro p hp
      obtain ⟨new, h1, h2⟩ := epfm_fold_append mo yr now db.members (db.payments, db.nextPid)
      have hp2 : p ∈ db.payments ++ new := by
        rw [← h1]
        exact hp
      rcases List.mem_append.mp hp2 with hp3 | hp3
      · exact ih p hp3
      · obtain ⟨_, _, _, _, _, m, hm, hpm, _⟩ := h2 p hp3
        rw [hpm]
        exact List.mem_map_of_mem _ hm
  | bulkFill mo yr now =>
    intro p hp
    obtain ⟨new, h1, h2⟩ := epfm_fold_append mo yr now db.members (db.payments, db.nextPid)
    have hp2 : p ∈ db.payments ++ new := by
      rw [← h1]
      exact hp
    rcases List.mem_append.mp hp2 with hp3 | hp3
    · exact ih p hp3
    · obtain ⟨_, _, _, _, _, m, hm, hpm, _⟩ := h2 p hp3
      rw [hpm]
      exact List.mem_map_of_mem _ hm
  | markPaid mid mo yr now =>
    intro p hp
    have hmem : p.member_id ∈
        (mark_paid_for_member_current_month mid mo yr now db).payments.map
          fun q => q.member_id :=
      List.mem_map_of_mem _ hp
    rw [mark_paid_pay_mids] at hmem
    obtain ⟨q, hq, hqe⟩ := List.mem_map.mp hmem
    rw [← hqe]
    exact ih q hq
  | markUnpaid mid mo yr now =>
    intro p hp
    have hmem : p.member_id ∈
        (mark_unpaid_for_member_current_month mid mo yr now db).payments.map
          fun q => q.member_id :=
      List.mem_map_of_mem _ hp
    rw [mark_unpaid_pay_mids] at hmem
    obtain ⟨q, hq, hqe⟩ := List.mem_map.mp hmem
    rw [← hqe]
    exact ih q hq
  | clear =>
    intro p hp
    simp only [clear_all_data, List.not_mem_nil] at hp

/-- Amended Claim C6: in every state reachable by the program's operations
— where ensure_payments_for_member_month is invoked only from add_member,
with the id of the member just inserted — every payment row's member_id
references an existing member, and deleting a member leaves no row
referencing it. (Called standalone with an absent member id the function
does insert an orphan row; see the counterexample.) -/
theorem referential_integrity_invariant (db : DB) (h : Reachable db) : RefIntegrity db := by
  induction h with
  | init =>
    intro p hp
    simp only [initialDB, List.not_mem_nil] at hp
  | step _ hs ih => exact step_preserves_refintegrity hs ih

/-- Witness for amended Claim C6: the state reached by adding two members
and deleting the first satisfies referential integrity. -/
theorem referential_integrity_invariant_witness :
    RefIntegrity (delete_member 10000
      (addMemberForm "Bea" "" 300 10001 5 2025 "t2"
        (addMemberForm "Ali" "" 250 10000 5 2025 "t1" initialDB))) :=
  referential_integrity_invariant _
    (Reachable.step
      (Reachable.step
        (Reachable.step Reachable.init
          (Step.add initialDB "Ali" "" 250 10000 5 2025 "t1" (by decide) (by decide) (by decide)))
        (Step.add _ "Bea" "" 300 10001 5 2025 "t2" (by decide) (by decide) (by decide)))
      (Step.del _ 10000))

theorem strLtB_asymm : ∀ l1 l2 : List Char, strLtB l1 l2 = true → strLtB l2 l1 = false := by
  intro l1
  induction l1 with
  | nil =>
    intro l2 h
    cases l2 with
    | nil => simp [strLtB] at h
    | cons b bs => simp [strLtB]
  | cons a as ih =>
    intro l2 h
    cases l2 with
    | nil => simp [strLtB] at h
    | cons b bs =>
      simp only [strLtB] at h ⊢
      by_cases h1 : a.toNat < b.toNat
      · rw [if_neg (by omega), if_pos h1]
      · rw [if_neg h1] at h
        by_cases h2 : b.toNat < a.toNat
        · rw [if_pos h2] at h
          cases h
        · rw [if_neg h2] at h
          rw [if_neg h2, if_neg h1]
          exact ih bs h

theorem strLtB_false_trans : ∀ (l3 l2 l1 : List Char),
    strLtB l2 l1 = false → strLtB l3 l2 = false → strLtB l3 l1 = false := by
  intro l3
  induction l3 with
  | nil =>
    intro l2 l1 h1 h2
    cases l2 with
    | cons b bs => simp [strLtB] at h2
    | nil =>
      cases l1 with
      | cons a as => simp [strLtB] at h1
      | nil => rfl
  | cons c cs ih =>
    intro l2 l1 h1 h2
    cases l2 with
    | nil =>
      cases l1 with
      | cons a as => simp [strLtB] at h1
      | nil => rfl
    | cons b bs =>
      cases l1 with
      | nil => rfl
      | cons a as =>
        simp only [strLtB] at h1 h2 ⊢
        by_cases hba : b.toNat < a.toNat
        · rw [if_pos hba] at h1
          cases h1
        · rw [if_neg hba] at h1
          by_cases hcb : c.toNat < b.toNat
          · rw [if_pos hcb] at h2
            cases h2
          · rw [if_neg hcb] at h2
            rw [if_neg (by omega : ¬ c.toNat < a.toNat)]
            by_cases hac : a.toNat < c.toNat
            · rw [if_pos hac]
            · rw [if_neg hac]
              have hab : ¬ a.toNat < b.toNat := by omega
              have hbc : ¬ b.toNat < c.toNat := by omega
              rw [if_neg hab] at h1
              rw [if_neg hbc] at h2
              exact ih bs as h1 h2

instance : IsTotal String fun a b => strLeB a b = true where
  total := by
    intro a b
    cases h : strLtB b.data a.data with
    | false =>
      left
      show (!(strLtB b.data a.data)) = true
      rw [h]
      rfl
    | true =>
      right
      show (!(strLtB a.data b.data)) = true
      rw [strLtB_asymm _ _ h]
      rfl

instance : IsTrans String fun a b => strLeB a b = true where
  trans := by
    intro a b c hab hbc
    show (!(strLtB c.data a.data)) = true
    have h1 : strLtB b.data a.data = false := by simpa [strLeB] using hab
    have h2 : strLtB c.data b.data = false := by simpa [strLeB] using hbc
    rw [strLtB_false_trans c.data b.data a.data h1 h2]
    rfl

/-- Amended Claim C7: the trend series has one entry per distinct month
label among the Paid rows (a period whose rows are all Unpaid gets no
entry), each entry's value is the total Paid amount of that label, and the
entries are ordered by ascending label string in code-point order — the
order of pandas sort_values on the "%b %Y" labels — which is alphabetical,
not chronological. -/
theorem trend_series_spec (ps : List PaymentRow) :
    List.Sorted (fun a b => strLeB a b = true) ((trend_series ps).map Prod.fst) ∧
    ((trend_series ps).map Prod.fst).Nodup ∧
    (∀ p ∈ ps, p.status = "Paid" → monthLabel p.month p.year ∈ (trend_series ps).map Prod.fst) ∧
    (∀ e ∈ trend_series ps,
      (∃ p ∈ ps, p.status = "Paid" ∧ monthLabel p.month p.year = e.1) ∧
      e.2 = (((ps.filter fun p => p.status == "Paid").filter
          fun p => monthLabel p.month p.year == e.1).map fun p => p.amount).sum) := by
  have hmapfst : (trend_series ps).map Prod.fst =
      List.insertionSort (fun a b => strLeB a b = true)
        ((ps.filter fun p => p.status == "Paid").map
          fun p => monthLabel p.month p.year).dedup := by
    simp only [trend_series]
    rw [List.map_map]
    exact List.map_id'' (fun x => rfl) _
  refine ⟨?_, ?_, ?_, ?_⟩
  · rw [hmapfst]
    exact List.sorted_insertionSort _ _
  · rw [hmapfst]
    exact ((List.perm_insertionSort _ _).nodup_iff).mpr (List.nodup_dedup _)
  · intro p hp hpaid
    rw [hmapfst]
    rw [(List.perm_insertionSort _ _).mem_iff, List.mem_dedup]
    exact List.mem_map_of_mem _ (List.mem_filter.mpr ⟨hp, by simp [hpaid]⟩)
  · intro e he
    simp only [trend_series, List.mem_map] at he
    obtain ⟨l, hl, hle⟩ := he
    subst hle
    constructor
    · have hl2 : l ∈ ((ps.filter fun p => p.status == "Paid").map
          fun p => monthLabel p.month p.year).dedup := by
        rw [← (List.perm_insertionSort (fun a b => strLeB a b = true) _).mem_iff]
        exact hl
      rw [List.mem_dedup] at hl2
      obtain ⟨p, hp, hpl⟩ := List.mem_map.mp hl2
      rw [List.mem_filter] at hp
      exact ⟨p, hp.1, by simpa using hp.2, hpl⟩
    · rfl

/-- Counterexample to Claim C7: with Paid rows in January and February 2025
and an Unpaid row in March 2025, the period (3, 2025) is present in the
ledger but absent from the trend series, and the series lists the February
2025 entry before the January 2025 entry (alphabetical label order), so
earlier calendar periods do not come first. -/
theorem trend_series_counterexample :
    ¬ (∀ p ∈ [({ pid := 1, member_id := 10000, month := 1, year := 2025, status := "Paid",
                 amount := 250, last_updated := "t1" } : PaymentRow),
               { pid := 2, member_id := 10001, month := 2, year := 2025, status := "Paid",
                 amount := 300, last_updated := "t2" },
               { pid := 3, member_id := 10000, month := 3, year := 2025, status := "Unpaid",
                 amount := 100, last_updated := "t3" }],
        (monthLabel p.month p.year) ∈
          (trend_series [{ pid := 1, member_id := 10000, month := 1, year := 2025,
                           status := "Paid", amount := 250, last_updated := "t1" },
                         { pid := 2, member_id := 10001, month := 2, year := 2025,
                           status := "Paid", amount := 300, last_updated := "t2" },
                         { pid := 3, member_id := 10000, month := 3, year := 2025,
                           status := "Unpaid", amount := 100, last_updated := "t3" }]).map
            Prod.fst) ∧
    (trend_series [{ pid := 1, member_id := 10000, month := 1, year := 2025,
                     status := "Paid", amount := 250, last_updated := "t1" },
                   { pid := 2, member_id := 10001, month := 2, year := 2025,
                     status := "Paid", amount := 300, last_updated := "t2" },
                   { pid := 3, member_id := 10000, month := 3, year := 2025,
                     status := "Unpaid", amount := 100, last_updated := "t3" }]).map
        Prod.fst = [monthLabel 2 2025, monthLabel 1 2025] := by
  decide

/-- Big-endian decimal digits of a natural number, as characters. -/
def decDigits (n : Nat) : List Char :=
  if n < 10 then [Nat.digitChar n]
  else decDigits (n / 10) ++ [Nat.digitChar (n % 10)]
decreasing_by exact Nat.div_lt_self (by omega) (by omega)

theorem toDigitsCore_eq_decDigits :
    ∀ (fuel n : Nat) (ds : List Char), n < fuel →
      Nat.toDigitsCore 10 fuel n ds = decDigits n ++ ds := by
  intro fuel
  induction fuel with
  | zero => intro n ds h; omega
  | succ fuel ih =>
    intro n ds h
    simp only [Nat.toDigitsCore]
    by_cases h10 : n < 10
    · have hz : n / 10 = 0 := Nat.div_eq_of_lt h10
      rw [if_pos hz]
      rw [decDigits, if_pos h10]
      have hm : n % 10 = n := Nat.mod_eq_of_lt h10
      rw [hm]
      rfl
    · have hlt : n / 10 < n := Nat.div_lt_self (by omega) (by omega)
      have hnz : ¬ n / 10 = 0 := by
        intro hc
        rw [hc] at hlt
        have h1 : 1 ≤ n / 10 := (Nat.one_le_div_iff (by omega)).mpr (by omega)
        omega
      rw [if_neg hnz]
      rw [ih (n / 10) (Nat.digitChar (n % 10) :: ds) (by omega)]
      conv_rhs => rw [decDigits]
      rw [if_neg h10]
      simp

/-- Decimal value of a digit string. -/
def valOfDigits (l : List Char) : Nat :=
  l.foldl (fun a c => 10 * a + (c.toNat - 48)) 0

theorem digitChar_val : ∀ d, d < 10 → (Nat.digitChar d).toNat - 48 = d := by decide

theorem valOfDigits_append_single (l : List Char) (c : Char) :
    valOfDigits (l ++ [c]) = 10 * valOfDigits l + (c.toNat - 48) := by
  simp [valOfDigits, List.foldl_append]

theorem valOfDigits_decDigits : ∀ n, valOfDigits (decDigits n) = n := by
  intro n
  induction n using Nat.strong_induction_on with
  | _ n ih =>
    by_cases h : n < 10
    · rw [decDigits, if_pos h]
      show 10 * 0 + ((Nat.digitChar n).toNat - 48) = n
      rw [digitChar_val n h]
      omega
    · rw [decDigits, if_neg h]
      rw [valOfDigits_append_single]
      have hlt : n / 10 < n := Nat.div_lt_self (by omega) (by omega)
      rw [ih (n / 10) hlt]
      rw [digitChar_val (n % 10) (Nat.mod_lt n (by omega))]
      omega

/-- Decimal printing of naturals is injective. -/
theorem natRepr_inj (a b : Nat) (h : Nat.repr a = Nat.repr b) : a = b := by
  have hd : Nat.toDigits 10 a = Nat.toDigits 10 b := congrArg String.data h
  have ha : Nat.toDigits 10 a = decDigits a :=
    (toDigitsCore_eq_decDigits (a + 1) a [] (by omega)).trans (List.append_nil _)
  have hb : Nat.toDigits 10 b = decDigits b :=
    (toDigitsCore_eq_decDigits (b + 1) b [] (by omega)).trans (List.append_nil _)
  have hdd : decDigits a = decDigits b := by rw [← ha, ← hb, hd]
  calc a = valOfDigits (decDigits a) := (valOfDigits_decDigits a).symm
    _ = valOfDigits (decDigits b) := by rw [hdd]
    _ = b := valOfDigits_decDigits b

theorem string_data_inj {s t : String} (h : s.data = t.data) : s = t := by
  cases s
  cases t
  exact congrArg String.mk h

theorem monthAbbrev_len : ∀ a < 13, 1 ≤ a → (monthAbbrev a).data.length = 3 := by decide

theorem monthAbbrev_data_inj : ∀ a < 13, ∀ b < 13,
    (monthAbbrev a).data = (monthAbbrev b).data → a = b := by decide

/-- The "%b %Y" month label determines the period, for valid months. -/
theorem monthLabel_inj (mo yr mo2 yr2 : Nat)
    (hmo1 : 1 ≤ mo) (hmo2 : mo ≤ 12) (hmo3 : 1 ≤ mo2) (hmo4 : mo2 ≤ 12)
    (h : monthLabel mo yr = monthLabel mo2 yr2) : mo = mo2 ∧ yr = yr2 := by
  have hd := congrArg String.data h
  simp only [monthLabel, String.data_append, List.append_assoc] at hd
  have hd2 : (monthAbbrev mo).data ++ (' ' :: (Nat.repr yr).data) =
      (monthAbbrev mo2).data ++ (' ' :: (Nat.repr yr2).data) := hd
  have hlen : (monthAbbrev mo).data.length = (monthAbbrev mo2).data.length := by
    rw [monthAbbrev_len mo (by omega) hmo1, monthAbbrev_len mo2 (by omega) hmo3]
  obtain ⟨habb, htail⟩ := List.append_inj hd2 hlen
  rw [List.cons.injEq] at htail
  constructor
  · exact monthAbbrev_data_inj mo (by omega) mo2 (by omega) habb
  · exact natRepr_inj yr yr2 (string_data_inj htail.2)

/-- Amended Claim C8: for a valid selected period and a ledger whose months
are valid, the Logs summary reports paid count = number of that period's
rows with status Paid, unpaid count = number of that period's rows with
status Unpaid, and collected = the Paid-amount sum truncated toward zero to
an integer (Python int(...)); when that sum is integral — as in the claim's
example — the truncation equals the sum. -/
theorem logs_summary_spec (ps : List PaymentRow) (mo yr : Nat)
    (hmo1 : 1 ≤ mo) (hmo2 : mo ≤ 12)
    (hvalid : ∀ p ∈ ps, 1 ≤ p.month ∧ p.month ≤ 12) :
    (logs_summary ps (monthLabel mo yr)).paidCount =
      ((ps.filter fun p => p.month == mo && p.year == yr).filter
        fun p => p.status == "Paid").length ∧
    (logs_summary ps (monthLabel mo yr)).unpaidCount =
      ((ps.filter fun p => p.month == mo && p.year == yr).filter
        fun p => p.status == "Unpaid").length ∧
    (logs_summary ps (monthLabel mo yr)).collected =
      pyInt (((ps.filter fun p => p.month == mo && p.year == yr).filter
        fun p => p.status == "Paid").map fun p => p.amount).sum := by
  have key : ∀ p ∈ ps, (monthLabel p.month p.year == monthLabel mo yr) =
      (p.month == mo && p.year == yr) := by
    intro p hp
    by_cases hc : p.month = mo ∧ p.year = yr
    · obtain ⟨h1, h2⟩ := hc
      rw [h1, h2]
      simp
    · have hne : monthLabel p.month p.year ≠ monthLabel mo yr := by
        intro he
        obtain ⟨e1, e2⟩ :=
          monthLabel_inj p.month p.year mo yr (hvalid p hp).1 (hvalid p hp).2 hmo1 hmo2 he
        exact hc ⟨e1, e2⟩
      have hr : (p.month == mo && p.year == yr) = false := by
        by_contra hcc
        simp only [Bool.not_eq_false, Bool.and_eq_true, beq_iff_eq] at hcc
        exact hc hcc
      rw [hr]
      simp [hne]
  have hgrp : (ps.filter fun p => monthLabel p.month p.year == monthLabel mo yr) =
      ps.filter fun p => p.month == mo && p.year == yr :=
    List.filter_congr key
  refine ⟨?_, ?_, ?_⟩ <;> simp only [logs_summary, hgrp]

/-- The example ledger from the claim:
[(A, Jan, Paid, 250), (B, Jan, Unpaid, 250), (A, Feb, Paid, 300)]. -/
def exampleRows : List PaymentRow :=
  [{ pid := 1, member_id := 10000, month := 1, year := 2025, status := "Paid",
     amount := 250, last_updated := "t1" },
   { pid := 2, member_id := 10001, month := 1, year := 2025, status := "Unpaid",
     amount := 250, last_updated := "t1" },
   { pid := 3, member_id := 10000, month := 2, year := 2025, status := "Paid",
     amount := 300, last_updated := "t2" }]

/-- Witness for amended Claim C8: the claim's example ledger at the
selected period (1, 2025). -/
theorem logs_summary_spec_witness :
    (logs_summary exampleRows (monthLabel 1 2025)).paidCount =
      ((exampleRows.filter fun p => p.month == 1 && p.year == 2025).filter
        fun p => p.status == "Paid").length ∧
    (logs_summary exampleRows (monthLabel 1 2025)).unpaidCount =
      ((exampleRows.filter fun p => p.month == 1 && p.year == 2025).filter
        fun p => p.status == "Unpaid").length ∧
    (logs_summary exampleRows (monthLabel 1 2025)).collected =
      pyInt (((exampleRows.filter fun p => p.month == 1 && p.year == 2025).filter
        fun p => p.status == "Paid").map fun p => p.amount).sum :=
  logs_summary_spec exampleRows 1 2025 (by decide) (by decide) (by decide)

/-- The row used by the counterexample to Claim C8: a Paid January 2025 row
whose amount is 250.5 (the rational 501/2). -/
def rowC : PaymentRow :=
  { pid := 1, member_id := 10000, month := 1, year := 2025, status := "Paid",
    amount := ⟨501, 2, by decide, by decide⟩, last_updated := "t" }

/-- Counterexample to Claim C8: with a single Paid row of amount 250.5 for
January 2025, the summary's collected figure is int(250.5) = 250, not the
sum 250.5 of the period's Paid amounts. -/
theorem logs_summary_counterexample :
    ¬ (((logs_summary [rowC] (monthLabel 1 2025)).collected : Rat) =
        (([rowC].filter fun p => (p.month == 1 && p.year == 2025) && p.status == "Paid").map
          fun p => p.amount).sum) ∧
    (logs_summary [rowC] (monthLabel 1 2025)).collected = 250 := by
  have hsum : (([rowC].filter fun p =>
      (p.month == 1 && p.year == 2025) && p.status == "Paid").map
        fun p => p.amount).sum = (⟨501, 2, by decide, by decide⟩ : Rat) := by
    simp +decide [rowC]
  have hcol : (logs_summary [rowC] (monthLabel 1 2025)).collected = 250 := by
    have hg : ([rowC].filter fun p => monthLabel p.month p.year == monthLabel 1 2025) =
        [rowC] := by decide
    simp only [logs_summary, hg]
    have hps : (([rowC].filter fun p => p.status == "Paid").map fun p => p.amount).sum =
        (⟨501, 2, by decide, by decide⟩ : Rat) := by
      simp +decide [rowC]
    rw [hps]
    decide
  refine ⟨?_, hcol⟩
  rw [hcol, hsum]
  intro hcc
  have hnum := congrArg Rat.num hcc
  norm_num at hnum
